import Mathlib

/-!
Shallow embedding of `phonecaller.py` (martinez-orders): phone normalization
and matching, the AMI event correlation heuristics with their dedup cache,
the webhook POST handler, and the reconnect backoff.  Strings are embedded
as `List Char`; Python string slicing `s[-n:]` becomes `takeLast n`.
-/

namespace PhoneCaller

/-- `s[-n:]` for a positive `n`: the last `min n (length s)` elements. -/
def takeLast {α : Type} (n : Nat) (l : List α) : List α :=
  (l.reverse.take n).reverse

/-- `re.sub(r'\D', '', phone)`: keep only the digit characters. -/
def digitsOf (s : List Char) : List Char :=
  s.filter Char.isDigit

/-- Python substring test `a in b` (contiguous substring). -/
def isSub (a b : List Char) : Bool :=
  decide (a <:+: b)

/-- The fixed-priority international calling-code list from
`WooCommerceClient.normalize_phone`. -/
def countryCodes : List (List Char) :=
  [['1'], ['4','4'], ['4','9'], ['3','3'], ['3','9'], ['3','4'],
   ['3','1'], ['9','8'], ['3','5','9']]

/-- The `for prefix in [...]` loop of `normalize_phone`: strip the first
calling code that matches while the digit string still has more than 10
digits, then break (at most one is stripped). -/
def stripCountryCode : List (List Char) → List Char → List Char
  | [], d => d
  | p :: ps, d =>
      if p.isPrefixOf d ∧ 10 < d.length then d.drop p.length
      else stripCountryCode ps d

/-- `WooCommerceClient.normalize_phone` (lines 471-482). -/
def normalize_phone (phone : List Char) : List Char :=
  let digits := digitsOf phone
  let digits :=
    if 10 < digits.length then
      let digits :=
        if List.isPrefixOf ['0','0'] digits then digits.drop 2
        else if List.isPrefixOf ['0'] digits then digits.drop 1
        else digits
      stripCountryCode countryCodes digits
    else digits
  if 10 ≤ digits.length then takeLast 10 digits else digits

/-- `WooCommerceClient._phone_matches` (lines 530-544): takes two already
normalized values. -/
def phone_matches (ns nb : List Char) : Bool :=
  if ns = [] ∨ nb = [] then false
  else if isSub ns nb ∨ isSub nb ns then true
  else if 9 ≤ ns.length ∧ 9 ≤ nb.length then
    decide (takeLast 9 ns = takeLast 9 nb)
  else false

/-- The lookup-side matcher as used by `search_orders_by_phone`: normalize
both raw values, then `_phone_matches`. -/
def lookupMatch (a b : List Char) : Bool :=
  phone_matches (normalize_phone a) (normalize_phone b)

/-- `AsteriskAMI._normalize_number` (lines 1002-1007): digits, then
`lstrip('0')`. -/
def normalize_number (number : List Char) : List Char :=
  (digitsOf number).dropWhile (fun c => c = '0')

/-- `AsteriskAMI._numbers_match` (lines 1009-1016). -/
def numbers_match (num1 num2 : List Char) : Bool :=
  let n1 := normalize_number num1
  let n2 := normalize_number num2
  if n1 = [] ∨ n2 = [] then false
  else isSub n1 n2 || isSub n2 n1 ||
    (decide (9 ≤ n1.length) && decide (9 ≤ n2.length) &&
     decide (takeLast 9 n1 = takeLast 9 n2))

/-- `channel.upper().split('-')[0]`: uppercase, then the part before the
first dash. -/
def chanBase (c : List Char) : List Char :=
  (c.map Char.toUpper).takeWhile (fun ch => ch ≠ '-')

/-- The placeholder tuple `('<unknown>', '', 's', 'anonymous')` from
`AsteriskAMI._process_event`. -/
def placeholders : List (List Char) :=
  ["<unknown>".toList, [], ['s'], "anonymous".toList]

/-- `caller if caller and caller not in ('<unknown>', '', 's', 'anonymous')
else None`. -/
def acceptCaller (c : List Char) : Option (List Char) :=
  if c ≠ [] ∧ c ∉ placeholders then some c else none

/-- The fields of a parsed AMI event that `_process_event` reads.
`linkedid` is `none` when the `Linkedid` header is absent, in which case the
code falls back to `Uniqueid`. -/
structure AmiEvent where
  event : List Char
  channel : List Char
  callerIdNum : List Char
  uniqueid : List Char
  linkedid : Option (List Char)
  connectedLineNum : List Char
  channelStateDesc : List Char
  destChannel : List Char
  deriving DecidableEq

/-- The three correlation heuristics of `_process_event` (lines 1044-1078),
in order: DialBegin, DialState+Ringing, Newstate+Ringing (the last trying
`ConnectedLineNum` before `CallerIDNum`).  Returns the accepted caller. -/
def matchEvent (watch : List Char) (e : AmiEvent) : Option (List Char) :=
  let m1 : Option (List Char) :=
    if e.event = "DialBegin".toList ∧ watch ≠ [] ∧ e.destChannel ≠ [] ∧
        chanBase e.destChannel = watch then
      acceptCaller e.callerIdNum
    else none
  let m2 : Option (List Char) :=
    if e.event = "DialState".toList ∧ watch ≠ [] ∧ e.destChannel ≠ [] ∧
        chanBase e.destChannel = watch ∧
        e.channelStateDesc = "Ringing".toList then
      acceptCaller e.callerIdNum
    else none
  let m3 : Option (List Char) :=
    if e.event = "Newstate".toList ∧ e.channelStateDesc = "Ringing".toList ∧
        watch ≠ [] ∧ e.channel ≠ [] ∧ chanBase e.channel = watch then
      (acceptCaller e.connectedLineNum).orElse
        (fun _ => acceptCaller e.callerIdNum)
    else none
  (m1.orElse fun _ => m2).orElse fun _ => m3

/-- `f"call_{linked_id}_{actual_caller}"` with the `Linkedid → Uniqueid`
fallback. -/
def callKey (e : AmiEvent) (caller : List Char) : List Char :=
  "call_".toList ++ e.linkedid.getD e.uniqueid ++ ['_'] ++ caller

/-- The emit-and-dedup tail of `_process_event` (lines 1081-1089).  The
dedup set `_processed_calls` is an unordered Python set; its contents are
modelled as a duplicate-free list (kept in insertion order between trims)
and the iteration order that `list(s)` exposes during the trim
`set(list(s)[-100:])` is left abstract: `enum` stands for that enumeration
(faithful instances of `enum` permute their argument; CPython's order is
hash-arbitrary, so no particular permutation may be assumed).  Returns the
new cache and the caller of the emitted Notification when one is
emitted. -/
def processEvent (enum : List (List Char) → List (List Char))
    (watch : List Char) (cache : List (List Char))
    (e : AmiEvent) : List (List Char) × Option (List Char) :=
  match matchEvent watch e with
  | none => (cache, none)
  | some c =>
      let key := callKey e c
      if key ∈ cache then (cache, none)
      else
        let cache2 := cache ++ [key]
        let cache3 := if 200 < cache2.length then takeLast 100 (enum cache2)
                      else cache2
        (cache3, some c)

/-- Fold `processEvent` over a sequence of events, keeping the cache. -/
def processAll (enum : List (List Char) → List (List Char))
    (watch : List Char) (cache : List (List Char)) :
    List AmiEvent → List (List Char)
  | [] => cache
  | e :: es => processAll enum watch (processEvent enum watch cache e).1 es

/-- The request body of `POST /incoming-call` after `json.loads`:
`malformed` when parsing raises (in particular the empty body `""`, since
`json.loads("")` raises `JSONDecodeError`); otherwise the JSON object with
its `"phone"` string field (`none` when the field is absent). -/
inductive JsonBody where
  | malformed : JsonBody
  | obj : Option (List Char) → JsonBody
  deriving DecidableEq

/-- `WebhookHandler.do_POST` on path `/incoming-call` (lines 793-821):
the HTTP status returned and the phone values of the Notifications emitted
(via `signals.incoming_call.emit`).  An exception — e.g. a malformed body —
hits the `except` branch and answers 500. -/
def do_POST : JsonBody → Nat × List (List Char)
  | JsonBody.malformed => (500, [])
  | JsonBody.obj phoneOpt =>
      let phone := phoneOpt.getD []
      if phone ≠ [] then (200, [phone]) else (400, [])

/-- `delay = min(self._reconnect_delay * (2 ** retry_count), max_delay)`
with `_reconnect_delay = 5`, `max_delay = 60` (`AsteriskAMI._reconnect`). -/
def reconnectDelay (retryCount : Nat) : Nat :=
  min (5 * 2 ^ retryCount) 60

/-- One call of `_reconnect`, as the list of delays slept: `retry_count`
starts at the given value (0 at each call), each iteration sleeps
`reconnectDelay retry_count` and then attempts `connect()`; on success the
function returns, else `retry_count` is incremented.  The `Bool` list gives
the outcomes of the successive `connect()` attempts. -/
def reconnectLoop : Nat → List Bool → List Nat
  | _, [] => []
  | k, outcome :: rest =>
      reconnectDelay k :: (if outcome then [] else reconnectLoop (k + 1) rest)

/-- The claim's reading of `normalize_phone` on digit strings longer than
10: remove a leading "00" (else a single leading "0"), then strip the first
listed calling code that matches while the digit string still has more than
10 digits (at most one is stripped), then keep the last 10 digits when at
least 10 remain.  Stated with `find?` so it can be compared with the
loop-with-break of the source. -/
def claimStripCode (d : List Char) : List Char :=
  match countryCodes.find?
      (fun p => p.isPrefixOf d && decide (10 < d.length)) with
  | some p => d.drop p.length
  | none => d

/-- The full claimed pipeline for digit strings longer than 10 (see
`claimStripCode` for the calling-code step). -/
def claimNormalizeLong (s : List Char) : List Char :=
  let d1 := digitsOf s
  let d2 := if List.isPrefixOf ['0','0'] d1 then d1.drop 2
            else if List.isPrefixOf ['0'] d1 then d1.drop 1
            else d1
  let d3 := claimStripCode d2
  if 10 ≤ d3.length then takeLast 10 d3 else d3

/-- A concrete DialBegin event towards the watched channel, used by the
witnesses. -/
def evA : AmiEvent :=
  { event := "DialBegin".toList, channel := [],
    callerIdNum := "0888123456".toList, uniqueid := "u1".toList,
    linkedid := some "L1".toList, connectedLineNum := [],
    channelStateDesc := [], destChannel := "SIP/100-0001".toList }

/-- A second event of the same call as `evA` (same `Linkedid`, different
`Uniqueid`), used by the witnesses. -/
def evB : AmiEvent :=
  { evA with uniqueid := "u2".toList }

/-- A concrete cache of 200 distinct call identities (single characters of
codes 1000-1199), filling the dedup cache to its trim threshold; used to
exercise the overflow behaviour. -/
def bigCache : List (List Char) :=
  (List.range 200).map (fun i => [Char.ofNat (1000 + i)])

/- Helper lemmas shared by the claim theorems. -/

lemma takeLast_length {α : Type} (n : Nat) (l : List α) :
    (takeLast n l).length = min n l.length := by
  simp [takeLast]

lemma takeLast_of_length_le {α : Type} (n : Nat) (l : List α)
    (h : l.length ≤ n) : takeLast n l = l := by
  have h2 : l.reverse.length ≤ n := by simpa using h
  simp [takeLast, List.take_of_length_le h2]

lemma reconnectLoop_replicate (k n : Nat) :
    reconnectLoop k (List.replicate n false ++ [true])
      = (List.range (n + 1)).map (fun i => reconnectDelay (k + i)) := by
  induction n generalizing k with
  | zero => simp [reconnectLoop, List.range_succ]
  | succ n ih =>
      rw [List.replicate_succ, List.cons_append]
      rw [show reconnectLoop k (false :: (List.replicate n false ++ [true]))
            = reconnectDelay k ::
              reconnectLoop (k + 1) (List.replicate n false ++ [true]) from rfl]
      rw [ih (k + 1)]
      conv_rhs => rw [List.range_succ_eq_map]
      simp only [List.map_cons, List.map_map, Nat.add_zero]
      refine congrArg (fun t => reconnectDelay k :: t) ?_
      refine List.map_congr_left ?_
      intro i _
      show reconnectDelay (k + 1 + i) = reconnectDelay (k + (i + 1))
      refine congrArg reconnectDelay ?_
      omega

lemma reconnectDelay_capped (k : Nat) (hk : 4 ≤ k) : reconnectDelay k = 60 := by
  have h : 16 ≤ 2 ^ k := by
    calc (16 : Nat) = 2 ^ 4 := by norm_num
    _ ≤ 2 ^ k := Nat.pow_le_pow_right (by norm_num) hk
  unfold reconnectDelay
  omega

/-- C1: the claim states `normalize("0888123456") = "888123456"`.  The code
disagrees: a 10-digit string never enters the stripping branch (which
requires more than 10 digits), and the final step returns the last 10
digits, i.e. the input unchanged. -/
theorem c1_counterexample :
    normalize_phone "0888123456".toList ≠ "888123456".toList ∧
    normalize_phone "0888123456".toList = "0888123456".toList := by decide

/-- C1 (amended): `normalize("0888123456")` returns `"0888123456"`: the
digit string has exactly 10 digits, so no leading zero is stripped and the
last-10 rule returns it unchanged. -/
theorem c1_normalize_ten_digit_zero :
    normalize_phone "0888123456".toList = "0888123456".toList := by decide

lemma phone_matches_iff (x y : List Char) :
    phone_matches x y = true ↔
      (x ≠ [] ∧ y ≠ [] ∧ (x <:+: y ∨ y <:+: x ∨
        (9 ≤ x.length ∧ 9 ≤ y.length ∧ takeLast 9 x = takeLast 9 y))) := by
  unfold phone_matches isSub
  split_ifs with h1 h2 h3 <;> simp_all [decide_eq_true_eq] <;> tauto

/-- C3: the claim states that `match(a, b)` is true exactly when one
normalized value is a substring of the other or both keep the same last 9
digits — and also that `match("", "888123456")` is false.  The two parts
contradict each other: the empty normalized value is a substring of every
string, yet the code (guarding on empty values) answers false there, so the
stated equivalence fails at `a = ""`, `b = "888123456"`. -/
theorem c3_counterexample :
    ¬ (lookupMatch "".toList "888123456".toList = true ↔
        (normalize_phone "".toList <:+: normalize_phone "888123456".toList ∨
         normalize_phone "888123456".toList <:+: normalize_phone "".toList ∨
         (9 ≤ (normalize_phone "".toList).length ∧
          9 ≤ (normalize_phone "888123456".toList).length ∧
          takeLast 9 (normalize_phone "".toList)
            = takeLast 9 (normalize_phone "888123456".toList)))) := by decide

/-- C3 (amended): `match(a, b)` normalizes both inputs and is true iff both
normalized values are non-empty and (either is a substring of the other, or
both have at least 9 digits and their last 9 digits are equal); in
particular `match("0888123456", "+359888123456") = true` and
`match("", "888123456") = false`. -/
theorem c3_match_characterization :
    (∀ a b : List Char, lookupMatch a b = true ↔
        (normalize_phone a ≠ [] ∧ normalize_phone b ≠ [] ∧
         (normalize_phone a <:+: normalize_phone b ∨
          normalize_phone b <:+: normalize_phone a ∨
          (9 ≤ (normalize_phone a).length ∧
           9 ≤ (normalize_phone b).length ∧
           takeLast 9 (normalize_phone a)
             = takeLast 9 (normalize_phone b))))) ∧
    lookupMatch "0888123456".toList "+359888123456".toList = true ∧
    lookupMatch "".toList "888123456".toList = false := by
  refine ⟨?_, by decide, by decide⟩
  intro a b
  exact phone_matches_iff (normalize_phone a) (normalize_phone b)

lemma normalize_phone_short (s : List Char)
    (h : (digitsOf s).length ≤ 10) : normalize_phone s = digitsOf s := by
  have hlt : ¬ 10 < (digitsOf s).length := by omega
  simp only [normalize_phone, if_neg hlt]
  by_cases h10 : 10 ≤ (digitsOf s).length
  · rw [if_pos h10]
    exact takeLast_of_length_le 10 _ h
  · rw [if_neg h10]

lemma normalize_number_no_leading_zero (s : List Char)
    (h : (digitsOf s).head? ≠ some '0') :
    normalize_number s = digitsOf s := by
  unfold normalize_number
  cases hd : digitsOf s with
  | nil => rfl
  | cons c t =>
      have hc : ¬ (c = '0') := by
        intro e
        exact h (by rw [hd, e]; rfl)
      rw [List.dropWhile_cons]
      simp [hc]

lemma phone_matches_eq_compare (n1 n2 : List Char) :
    phone_matches n1 n2
      = (if n1 = [] ∨ n2 = [] then false
         else isSub n1 n2 || isSub n2 n1 ||
           (decide (9 ≤ n1.length) && decide (9 ≤ n2.length) &&
            decide (takeLast 9 n1 = takeLast 9 n2))) := by
  unfold phone_matches
  by_cases h1 : n1 = [] ∨ n2 = []
  · rw [if_pos h1, if_pos h1]
  · rw [if_neg h1, if_neg h1]
    by_cases h2 : isSub n1 n2 = true ∨ isSub n2 n1 = true
    · rw [if_pos h2]
      rcases h2 with h | h <;> simp [h]
    · rw [if_neg h2]
      push_neg at h2
      have e1 : isSub n1 n2 = false := by simpa using h2.1
      have e2 : isSub n2 n1 = false := by simpa using h2.2
      rw [e1, e2]
      simp only [Bool.false_or]
      by_cases h3 : 9 ≤ n1.length ∧ 9 ≤ n2.length
      · rw [if_pos h3]
        simp [h3.1, h3.2]
      · rw [if_neg h3]
        by_cases h4 : 9 ≤ n1.length
        · have h5 : ¬ 9 ≤ n2.length := fun h5 => h3 ⟨h4, h5⟩
          simp [h4, h5]
        · simp [h4]

/-- C4: the claim states that the AMI-side matcher and the lookup-side
matcher are extensionally equal.  They are not: on the pair `("0", "0")` the
lookup side normalizes to `"0"` and matches by containment, while the AMI
side strips every leading zero, gets two empty values and answers false. -/
theorem c4_counterexample :
    lookupMatch ['0'] ['0'] = true ∧ numbers_match ['0'] ['0'] = false := by
  decide

/-- C4 (amended): the two matchers are distinct implementations and differ
extensionally, but they agree on every pair of inputs whose digit strings
have at most 10 digits and do not begin with a zero (there both
normalizations reduce to the bare digit string and both comparisons are the
same containment / last-9 test). -/
theorem c4_matchers_agree_short (a b : List Char)
    (ha : (digitsOf a).length ≤ 10) (hb : (digitsOf b).length ≤ 10)
    (ha0 : (digitsOf a).head? ≠ some '0')
    (hb0 : (digitsOf b).head? ≠ some '0') :
    lookupMatch a b = numbers_match a b := by
  rw [lookupMatch, normalize_phone_short a ha, normalize_phone_short b hb,
    phone_matches_eq_compare]
  simp only [numbers_match]
  rw [normalize_number_no_leading_zero a ha0,
    normalize_number_no_leading_zero b hb0]

theorem c4_matchers_agree_short_witness :
    (digitsOf "888123456".toList).length ≤ 10 ∧
    (digitsOf "888123456".toList).head? ≠ some '0' ∧
    lookupMatch "888123456".toList "888123456".toList
      = numbers_match "888123456".toList "888123456".toList :=
  ⟨by decide, by decide,
   c4_matchers_agree_short _ _ (by decide) (by decide) (by decide) (by decide)⟩

/-- C5: the claim states that an empty body yields 400.  The code disagrees:
`json.loads` on an empty body raises, so the `except` branch answers
500, not 400 (no Notification either way). -/
theorem c5_counterexample :
    do_POST JsonBody.malformed ≠ (400, []) ∧
    do_POST JsonBody.malformed = (500, []) := by decide

/-- C5 (amended): a body that is valid JSON with a non-empty `"phone"`
string yields 200 `{"status":"ok"}` and exactly one Notification carrying
that value verbatim; valid JSON with a missing or empty phone yields 400
`{"error":"phone required"}` and no Notification; a malformed (in
particular empty) body raises in `json.loads` and yields 500 with no
Notification. -/
theorem c5_webhook_responses (p : List Char) (hp : p ≠ []) :
    do_POST (JsonBody.obj (some p)) = (200, [p]) ∧
    do_POST (JsonBody.obj (some [])) = (400, []) ∧
    do_POST (JsonBody.obj none) = (400, []) ∧
    do_POST JsonBody.malformed = (500, []) := by
  refine ⟨?_, by decide, by decide, by decide⟩
  simp [do_POST, hp]

theorem c5_webhook_responses_witness :
    "0888123456".toList ≠ [] ∧
    do_POST (JsonBody.obj (some "0888123456".toList))
      = (200, ["0888123456".toList]) :=
  ⟨by decide, (c5_webhook_responses "0888123456".toList (by decide)).1⟩

/-- C8: the reconnect loop sleeps `min(5 * 2^attempt, 60)` seconds before
each attempt of a run of consecutive failures, the attempt counter starting
at zero at each call of `_reconnect` (hence resetting after a successful
reconnect); the delays are 5, 10, 20, 40 and then 60 forever. -/
theorem c8_reconnect_backoff :
    (∀ n, reconnectLoop 0 (List.replicate n false ++ [true])
        = (List.range (n + 1)).map reconnectDelay) ∧
    reconnectDelay 0 = 5 ∧ reconnectDelay 1 = 10 ∧ reconnectDelay 2 = 20 ∧
    reconnectDelay 3 = 40 ∧ (∀ k, 4 ≤ k → reconnectDelay k = 60) := by
  refine ⟨?_, by decide, by decide, by decide, by decide, ?_⟩
  · intro n
    have h := reconnectLoop_replicate 0 n
    simpa using h
  · intro k hk
    exact reconnectDelay_capped k hk

lemma stripCountryCode_eq_find (ps : List (List Char)) (d : List Char) :
    stripCountryCode ps d
      = match ps.find?
            (fun p => p.isPrefixOf d && decide (10 < d.length)) with
        | some p => d.drop p.length
        | none => d := by
  induction ps with
  | nil => rfl
  | cons p ps ih =>
      rw [stripCountryCode]
      by_cases h : List.isPrefixOf p d = true ∧ 10 < d.length
      · rw [if_pos h]
        rw [List.find?_cons_of_pos _ (by simp [h.1, h.2])]
      · rw [if_neg h, ih]
        rw [List.find?_cons_of_neg _
          (by simpa [Bool.and_eq_true, decide_eq_true_eq] using h)]

/-- C2: on a digit string longer than 10 digits, `normalize_phone` removes
a leading "00" (else a single leading "0"), strips the first calling code of
`[1, 44, 49, 33, 39, 34, 31, 98, 359]` that matches while more than 10
digits remain (at most one), then returns the last 10 digits when at least
10 remain, the full digit string otherwise; in particular
`normalize("+359888123456") = "888123456"`. -/
theorem c2_normalize_long_inputs :
    (∀ s : List Char, 10 < (digitsOf s).length →
        normalize_phone s = claimNormalizeLong s) ∧
    normalize_phone "+359888123456".toList = "888123456".toList := by
  refine ⟨?_, by decide⟩
  intro s hs
  simp only [normalize_phone, claimNormalizeLong, claimStripCode]
  rw [if_pos hs]
  rw [stripCountryCode_eq_find]

theorem c2_normalize_long_inputs_witness :
    10 < (digitsOf "+359888123456".toList).length ∧
    normalize_phone "+359888123456".toList
      = claimNormalizeLong "+359888123456".toList :=
  ⟨by decide, c2_normalize_long_inputs.1 "+359888123456".toList (by decide)⟩

lemma acceptCaller_valid {x c : List Char} (h : acceptCaller x = some c) :
    c ≠ [] ∧ c ∉ placeholders := by
  unfold acceptCaller at h
  by_cases hx : x ≠ [] ∧ x ∉ placeholders
  · rw [if_pos hx] at h
    injection h with h
    subst h
    exact hx
  · rw [if_neg hx] at h
    cases h

lemma orElse_eq_some {α : Type} {a : Option α} {f : Unit → Option α}
    {c : α} (h : a.orElse f = some c) : a = some c ∨ f () = some c := by
  cases a with
  | none => right; simpa [Option.orElse] using h
  | some x => left; simpa [Option.orElse] using h

lemma matchEvent_valid {watch : List Char} {e : AmiEvent} {c : List Char}
    (h : matchEvent watch e = some c) : c ≠ [] ∧ c ∉ placeholders := by
  simp only [matchEvent] at h
  rcases orElse_eq_some h with h | h
  · rcases orElse_eq_some h with h | h
    · split at h
      · exact acceptCaller_valid h
      · cases h
    · split at h
      · exact acceptCaller_valid h
      · cases h
  · split at h
    · rcases orElse_eq_some h with h | h
      · exact acceptCaller_valid h
      · exact acceptCaller_valid h
    · cases h

lemma processEvent_emit {enum : List (List Char) → List (List Char)}
    {watch : List Char} {cache : List (List Char)}
    {e : AmiEvent} {c : List Char}
    (h : (processEvent enum watch cache e).2 = some c) :
    matchEvent watch e = some c := by
  unfold processEvent at h
  cases hme : matchEvent watch e with
  | none => rw [hme] at h; simp at h
  | some c0 =>
      rw [hme] at h
      by_cases hk : callKey e c0 ∈ cache
      · simp [hk] at h
      · simp [hk] at h
        simp [h]

/-- C9: for every event record and all three heuristics (and regardless of
the set's iteration order), a candidate caller equal to the empty string,
`"<unknown>"`, `"s"` or `"anonymous"` is never accepted, so an emitted
Notification never carries a placeholder value. -/
theorem c9_no_placeholder_caller
    (enum : List (List Char) → List (List Char)) (watch : List Char)
    (cache : List (List Char)) (e : AmiEvent) (c : List Char)
    (h : (processEvent enum watch cache e).2 = some c) :
    c ≠ [] ∧ c ≠ "<unknown>".toList ∧ c ≠ ['s'] ∧
    c ≠ "anonymous".toList := by
  obtain ⟨hne, hmem⟩ := matchEvent_valid (processEvent_emit h)
  simp only [placeholders, List.mem_cons, not_or] at hmem
  refine ⟨hne, ?_, ?_, ?_⟩ <;> tauto

theorem c9_no_placeholder_caller_witness :
    (processEvent id "SIP/100".toList [] evA).2 = some "0888123456".toList ∧
    ("0888123456".toList ≠ [] ∧
     "0888123456".toList ≠ "<unknown>".toList ∧
     "0888123456".toList ≠ ['s'] ∧
     "0888123456".toList ≠ "anonymous".toList) :=
  ⟨by decide,
   c9_no_placeholder_caller id "SIP/100".toList [] evA "0888123456".toList
     (by decide)⟩

set_option maxRecDepth 100000 in
/-- C6: the claim states that any two records with the same call identity
yield exactly one Notification.  The code's trim keeps the last 100 of the
set's arbitrary iteration order, so the just-inserted identity need not
survive it: with a full cache of 200 identities and an enumeration that
lists the fresh key first (here `List.reverse` of the model's contents
list, one legitimate order for an unordered set), the first record emits
and its key is immediately evicted by the trim, and the second record of
the same call emits again — two Notifications. -/
theorem c6_counterexample :
    (processEvent List.reverse "SIP/100".toList bigCache evA).2
      = some "0888123456".toList ∧
    callKey evA "0888123456".toList
      ∉ (processEvent List.reverse "SIP/100".toList bigCache evA).1 ∧
    (processEvent List.reverse "SIP/100".toList
        (processEvent List.reverse "SIP/100".toList bigCache evA).1 evB).2
      = some "0888123456".toList := by decide

/-- C6 (amended): for any two event records with the same call identity
(linked-call id with fallback to the record's unique id, plus caller) that
both satisfy a heuristic, if the identity is not yet cached and the cache
held fewer than 200 identities when the first record arrived — so its
insertion does not trigger the trim — then, whatever the set's iteration
order, exactly one Notification is emitted: the first record inserts the
identity and emits, the second is suppressed.  (When the insertion
overflows the cache, the trim keeps an arbitrary 100 of the set and may
evict the fresh identity, after which the second record emits again.) -/
theorem c6_dedup_two_events_no_trim
    (enum : List (List Char) → List (List Char))
    (watch : List Char) (cache : List (List Char))
    (e1 e2 : AmiEvent) (c1 c2 : List Char)
    (h1 : matchEvent watch e1 = some c1)
    (h2 : matchEvent watch e2 = some c2)
    (hkey : callKey e2 c2 = callKey e1 c1)
    (hnew : callKey e1 c1 ∉ cache)
    (hsmall : cache.length < 200) :
    (processEvent enum watch cache e1).2 = some c1 ∧
    (processEvent enum watch
        (processEvent enum watch cache e1).1 e2).2 = none := by
  have hlen : ¬ 200 < (cache ++ [callKey e1 c1]).length := by
    simp only [List.length_append, List.length_cons, List.length_nil]
    omega
  have hpe : processEvent enum watch cache e1
      = (cache ++ [callKey e1 c1], some c1) := by
    simp only [processEvent, h1]
    rw [if_neg hnew]
    rw [if_neg hlen]
  have hfst : callKey e1 c1 ∈ (processEvent enum watch cache e1).1 := by
    rw [hpe]
    simp
  refine ⟨by rw [hpe], ?_⟩
  generalize hS : (processEvent enum watch cache e1).1 = S at hfst
  simp only [processEvent, h2]
  rw [hkey, if_pos hfst]

theorem c6_dedup_two_events_no_trim_witness :
    (processEvent id "SIP/100".toList [] evA).2
      = some "0888123456".toList ∧
    (processEvent id "SIP/100".toList
        (processEvent id "SIP/100".toList [] evA).1 evB).2 = none :=
  c6_dedup_two_events_no_trim id "SIP/100".toList [] evA evB
    "0888123456".toList "0888123456".toList
    (by decide) (by decide) (by decide) (by decide) (by decide)

lemma processEvent_length_le (enum : List (List Char) → List (List Char))
    (watch : List Char) (cache : List (List Char))
    (e : AmiEvent) (h : cache.length ≤ 200) :
    (processEvent enum watch cache e).1.length ≤ 200 := by
  cases hme : matchEvent watch e with
  | none => simpa [processEvent, hme] using h
  | some c =>
      by_cases hk : callKey e c ∈ cache
      · simpa [processEvent, hme, hk] using h
      · simp only [processEvent, hme]
        rw [if_neg hk]
        dsimp only
        split_ifs with ht
        · rw [takeLast_length]
          omega
        · simp only [List.length_append, List.length_cons,
            List.length_nil] at ht ⊢
          omega

lemma processAll_length_le (enum : List (List Char) → List (List Char))
    (watch : List Char) (cache : List (List Char))
    (events : List AmiEvent) (h : cache.length ≤ 200) :
    (processAll enum watch cache events).length ≤ 200 := by
  induction events generalizing cache with
  | nil => simpa [processAll] using h
  | cons e es ih =>
      rw [processAll]
      exact ih _ (processEvent_length_le enum watch cache e h)

set_option maxRecDepth 100000 in
/-- C7: the claim says the overflowing cache is trimmed to the most recent
100 entries.  The code keeps the last 100 of the set's arbitrary iteration
order: with `List.reverse` as the enumeration — one legitimate order for an
unordered set — the trimmed cache differs from the last 100 inserted
identities and does not even retain the just-inserted key. -/
theorem c7_counterexample :
    (processEvent List.reverse "SIP/100".toList bigCache evA).1
      ≠ takeLast 100 (bigCache ++ [callKey evA "0888123456".toList]) ∧
    (processEvent List.reverse "SIP/100".toList bigCache evA).1.length
      = 100 := by decide

/-- C7 (amended): starting from a cache with at most 200 call identities
(in particular the empty initial cache), processing any sequence of event
records leaves at most 200 identities, whatever iteration order the set
exposes; and whenever an insertion makes the cache exceed 200 entries it is
trimmed to exactly 100 entries — the last 100 of the set's (arbitrary)
iteration order at that moment, not necessarily the 100 most recently
inserted. -/
theorem c7_cache_bounded_trim_arbitrary :
    (∀ (enum : List (List Char) → List (List Char)) (watch : List Char)
        (cache : List (List Char)) (events : List AmiEvent),
        cache.length ≤ 200 →
        (processAll enum watch cache events).length ≤ 200) ∧
    (∀ (enum : List (List Char) → List (List Char)) (watch : List Char)
        (cache : List (List Char)) (e : AmiEvent) (c : List Char),
        (∀ l, List.Perm (enum l) l) → matchEvent watch e = some c →
        callKey e c ∉ cache → 200 < cache.length + 1 →
        (processEvent enum watch cache e).1
            = takeLast 100 (enum (cache ++ [callKey e c])) ∧
        (processEvent enum watch cache e).1.length = 100) := by
  constructor
  · intro enum watch cache events h
    exact processAll_length_le enum watch cache events h
  · intro enum watch cache e c henum hme hk hlen
    have hlen2 : 200 < (cache ++ [callKey e c]).length := by
      simp only [List.length_append, List.length_cons, List.length_nil]
      omega
    have heq : (processEvent enum watch cache e).1
        = takeLast 100 (enum (cache ++ [callKey e c])) := by
      simp only [processEvent, hme]
      rw [if_neg hk]
      dsimp only
      rw [if_pos hlen2]
    refine ⟨heq, ?_⟩
    rw [heq, takeLast_length, (henum (cache ++ [callKey e c])).length_eq]
    simp only [List.length_append, List.length_cons, List.length_nil]
    omega

set_option maxRecDepth 10000 in
theorem c7_cache_bounded_trim_arbitrary_witness :
    (processAll id "SIP/100".toList [] [evA, evB]).length ≤ 200 ∧
    (processEvent id "SIP/100".toList bigCache evA).1.length = 100 :=
  ⟨c7_cache_bounded_trim_arbitrary.1 id "SIP/100".toList [] [evA, evB]
     (by decide),
   (c7_cache_bounded_trim_arbitrary.2 id "SIP/100".toList bigCache evA
     "0888123456".toList (fun l => List.Perm.refl l) (by decide) (by decide)
     (by decide)).2⟩

lemma phone_matches_comm (x y : List Char) :
    phone_matches x y = phone_matches y x := by
  rw [phone_matches_eq_compare, phone_matches_eq_compare]
  by_cases h1 : x = [] ∨ y = []
  · rw [if_pos h1, if_pos h1.symm]
  · rw [if_neg h1, if_neg fun h => h1 h.symm]
    have he : decide (takeLast 9 x = takeLast 9 y)
        = decide (takeLast 9 y = takeLast 9 x) := by
      simp [eq_comm]
    rw [he]
    cases hb1 : isSub x y <;> cases hb2 : isSub y x <;>
      cases hd1 : decide (9 ≤ x.length) <;>
      cases hd2 : decide (9 ≤ y.length) <;> simp

lemma numbers_match_comm (x y : List Char) :
    numbers_match x y = numbers_match y x := by
  simp only [numbers_match]
  by_cases h1 : normalize_number x = [] ∨ normalize_number y = []
  · rw [if_pos h1, if_pos h1.symm]
  · rw [if_neg h1, if_neg fun h => h1 h.symm]
    have he : decide (takeLast 9 (normalize_number x)
          = takeLast 9 (normalize_number y))
        = decide (takeLast 9 (normalize_number y)
          = takeLast 9 (normalize_number x)) := by
      simp [eq_comm]
    rw [he]
    cases hb1 : isSub (normalize_number x) (normalize_number y) <;>
      cases hb2 : isSub (normalize_number y) (normalize_number x) <;>
      cases hd1 : decide (9 ≤ (normalize_number x).length) <;>
      cases hd2 : decide (9 ≤ (normalize_number y).length) <;> simp

/-- C10: both matchers are symmetric: the lookup-side matcher (normalize
with `normalize_phone`, then `_phone_matches`) and the AMI-side matcher
(`_numbers_match`) each give the same answer with their arguments
swapped. -/
theorem c10_match_symmetric (a b : List Char) :
    lookupMatch a b = lookupMatch b a ∧
    numbers_match a b = numbers_match b a :=
  ⟨phone_matches_comm (normalize_phone a) (normalize_phone b),
   numbers_match_comm a b⟩

theorem c8_reconnect_backoff_witness :
    reconnectLoop 0 (List.replicate 4 false ++ [true])
      = (List.range 5).map reconnectDelay ∧
    (4 : Nat) ≤ 6 ∧ reconnectDelay 6 = 60 :=
  ⟨c8_reconnect_backoff.1 4, by decide,
   c8_reconnect_backoff.2.2.2.2.2 6 (by decide)⟩

end PhoneCaller
